import Mathlib

/-!
Verification of the `gaussian_linear_uniform` benchmark task
(`bayesflow/benchmarks/gaussian_linear_uniform.py`).

The three operations `prior`, `observation_model` and `simulator` are
shallowly embedded.  Real numbers are modelled by `ℚ`; a numpy
`Generator` is modelled by a stream of raw scalar draws together with a
position counter: every scalar produced by `rng.uniform` or `rng.normal`
consumes exactly one stream element, and numpy fills result arrays in
row-major (C) order.  A raw draw `u` feeding `uniform(low, high)` yields
`low + (high - low) * u` with `u ∈ [0, 1)`; a raw draw `z` feeding
`normal(loc, scale)` yields `loc + scale * z`.
-/

namespace GaussianLinearUniform

/-- A numpy `Generator`: an infinite stream of raw scalar draws and the
position of the next draw.  Drawing advances `pos`. -/
structure Rng where
  stream : ℕ → ℚ
  pos : ℕ

/-- Advance the generator state by `n` consumed scalar draws. -/
def Rng.advance (r : Rng) (n : ℕ) : Rng :=
  ⟨r.stream, r.pos + n⟩

/-- `rng.uniform(low=lower_bound, high=upper_bound, size=D)`: a vector of
`D` scalars, each `low + (high - low) * u` for the next raw draw `u`,
filled left to right. -/
def uniformVec (D : ℕ) (low high : ℚ) (r : Rng) : List ℚ × Rng :=
  match D with
  | 0 => ([], r)
  | d + 1 =>
    let z := r.stream r.pos
    let p := uniformVec d low high (r.advance 1)
    ((low + (high - low) * z) :: p.1, p.2)

/-- `rng.normal(loc=v, scale=s)` for a 1-D `loc`: elementwise
`loc + scale * z`, one raw draw per component, in order. -/
def normalVec (loc : List ℚ) (scale : ℚ) (r : Rng) : List ℚ × Rng :=
  match loc with
  | [] => ([], r)
  | a :: rest =>
    let z := r.stream r.pos
    let p := normalVec rest scale (r.advance 1)
    ((a + scale * z) :: p.1, p.2)

/-- `rng.normal(loc=m, scale=s)` for a 2-D `loc`: row-major elementwise
`loc + scale * z`. -/
def normalMat (m : List (List ℚ)) (scale : ℚ) (r : Rng) :
    List (List ℚ) × Rng :=
  match m with
  | [] => ([], r)
  | row :: rest =>
    let p := normalVec row scale r
    let q := normalMat rest scale p.2
    (p.1 :: q.1, q.2)

/-- `rng.normal(loc=m, scale=s, size=(k, N, D))` with `loc` of shape
`(N, D)` broadcast along axis 0: `k` consecutive row-major 2-D fills. -/
def normalRep (k : ℕ) (m : List (List ℚ)) (scale : ℚ) (r : Rng) :
    List (List (List ℚ)) × Rng :=
  match k with
  | 0 => ([], r)
  | j + 1 =>
    let p := normalMat m scale r
    let q := normalRep j m scale p.2
    (p.1 :: q.1, q.2)

/-- `np.transpose(x, (1, 0, 2))` on an array of shape `(k, n, D)`:
the result has `n` outer rows and `result[i][j] = x[j][i]`. -/
def transpose102 (n : ℕ) (x : List (List (List ℚ))) :
    List (List (List ℚ)) :=
  (List.range n).map (fun i => x.map (fun plane => plane.getD i []))

/-- The `params` argument of `observation_model`: a single D-vector or a
2-D batch of shape (n_params, D). -/
inductive Params where
  | a1 : List ℚ → Params
  | a2 : List (List ℚ) → Params
deriving DecidableEq

/-- An ndarray returned by `observation_model`: rank 1, 2 or 3. -/
inductive Out where
  | o1 : List ℚ → Out
  | o2 : List (List ℚ) → Out
  | o3 : List (List (List ℚ)) → Out
deriving DecidableEq

/-- `prior(D, lower_bound, upper_bound, rng)`:
`rng.uniform(low=lower_bound, high=upper_bound, size=D)`. -/
def prior (D : ℕ) (lower_bound upper_bound : ℚ) (r : Rng) :
    List ℚ × Rng :=
  uniformVec D lower_bound upper_bound r

/-- `observation_model(params, n_obs, scale, rng)`.

With `n_obs = None` it returns `rng.normal(loc=params, scale=scale)`,
whose shape is the shape of `params` (rank 1 or 2).  With `n_obs` an
integer it evaluates `params.shape[0]` and `params.shape[1]` — an
`IndexError` when `params` is 1-D — draws
`rng.normal(loc=params, scale=scale, size=(n_obs, N, D))` and returns
its `(1, 0, 2)` transpose. -/
def observation_model (params : Params) (n_obs : Option ℕ) (scale : ℚ)
    (r : Rng) : Except String (Out × Rng) :=
  match n_obs with
  | none =>
    match params with
    | .a1 v => let p := normalVec v scale r; .ok (.o1 p.1, p.2)
    | .a2 m => let p := normalMat m scale r; .ok (.o2 p.1, p.2)
  | some k =>
    match params with
    | .a1 _ => .error "IndexError: tuple index out of range"
    | .a2 m =>
      let p := normalRep k m scale r
      .ok (.o3 (transpose102 m.length p.1), p.2)

/-- `simulator()`: `prior()` with its defaults (D = 10, bounds −1/1,
fresh generator `r1`), then `observation_model` on the resulting draw
with its defaults (`n_obs = None`, scale = 1/10, fresh generator `r2`),
assembled into `dict(parameters=..., observables=...)`, modelled as an
association list whose keys appear in insertion order. -/
def simulator (r1 r2 : Rng) : Except String (List (String × Out)) :=
  let prior_draws := (prior 10 (-1) 1 r1).1
  match observation_model (.a1 prior_draws) none (1/10) r2 with
  | .ok p => .ok [("parameters", .o1 prior_draws), ("observables", p.1)]
  | .error e => .error e

/-! ### Helper lemmas about the generator and the draw primitives -/

@[simp]
theorem Rng.advance_stream (r : Rng) (n : ℕ) :
    (r.advance n).stream = r.stream := rfl

@[simp]
theorem Rng.advance_pos (r : Rng) (n : ℕ) :
    (r.advance n).pos = r.pos + n := rfl

@[simp]
theorem Rng.advance_zero (r : Rng) : r.advance 0 = r := rfl

theorem Rng.advance_advance (r : Rng) (a b : ℕ) :
    (r.advance a).advance b = r.advance (a + b) := by
  simp [Rng.advance, Nat.add_assoc]

@[simp]
theorem normalVec_length (loc : List ℚ) (scale : ℚ) (r : Rng) :
    (normalVec loc scale r).1.length = loc.length := by
  induction loc generalizing r with
  | nil => simp [normalVec]
  | cons a rest ih => simp [normalVec, ih]

theorem normalVec_snd (loc : List ℚ) (scale : ℚ) (r : Rng) :
    (normalVec loc scale r).2 = r.advance loc.length := by
  induction loc generalizing r with
  | nil => simp [normalVec]
  | cons a rest ih =>
    simp [normalVec, ih, Rng.advance_advance, Nat.add_comm]

theorem normalVec_getD (loc : List ℚ) (scale : ℚ) (r : Rng) (d : ℕ)
    (hd : d < loc.length) :
    (normalVec loc scale r).1.getD d 0 =
      loc.getD d 0 + scale * r.stream (r.pos + d) := by
  induction loc generalizing r d with
  | nil => simp at hd
  | cons a rest ih =>
    cases d with
    | zero => simp [normalVec]
    | succ d =>
      have hd' : d < rest.length := by simpa using hd
      simp only [normalVec, List.getD_cons_succ]
      rw [ih (r.advance 1) d hd']
      simp [Nat.add_assoc, Nat.add_comm 1 d]

@[simp]
theorem normalMat_length (m : List (List ℚ)) (scale : ℚ) (r : Rng) :
    (normalMat m scale r).1.length = m.length := by
  induction m generalizing r with
  | nil => simp [normalMat]
  | cons row rest ih => simp [normalMat, ih]

theorem normalMat_snd (m : List (List ℚ)) (D : ℕ) (scale : ℚ) (r : Rng)
    (hD : ∀ row ∈ m, row.length = D) :
    (normalMat m scale r).2 = r.advance (m.length * D) := by
  induction m generalizing r with
  | nil => simp [normalMat]
  | cons row rest ih =>
    have hrow : row.length = D := hD row (by simp)
    have hrest : ∀ x ∈ rest, x.length = D := fun x hx => hD x (by simp [hx])
    simp only [normalMat]
    rw [normalVec_snd, ih _ hrest, Rng.advance_advance, hrow]
    simp [Nat.succ_mul, Nat.add_comm]

theorem normalMat_row_lengths (m : List (List ℚ)) (scale : ℚ) (r : Rng)
    (i : ℕ) (hi : i < m.length) :
    ((normalMat m scale r).1.getD i []).length = (m.getD i []).length := by
  induction m generalizing r i with
  | nil => simp at hi
  | cons row rest ih =>
    cases i with
    | zero => simp [normalMat]
    | succ i =>
      have hi' : i < rest.length := by simpa using hi
      simp only [normalMat, List.getD_cons_succ]
      exact ih _ i hi'

theorem normalMat_getD (m : List (List ℚ)) (D : ℕ) (scale : ℚ) (r : Rng)
    (hD : ∀ row ∈ m, row.length = D) (i : ℕ) (hi : i < m.length) :
    (normalMat m scale r).1.getD i [] =
      (normalVec (m.getD i []) scale (r.advance (i * D))).1 := by
  induction m generalizing r i with
  | nil => simp at hi
  | cons row rest ih =>
    have hrow : row.length = D := hD row (by simp)
    have hrest : ∀ x ∈ rest, x.length = D := fun x hx => hD x (by simp [hx])
    cases i with
    | zero => simp [normalMat]
    | succ i =>
      have hi' : i < rest.length := by simpa using hi
      simp only [normalMat, List.getD_cons_succ]
      rw [normalVec_snd, hrow, ih _ hrest i hi', Rng.advance_advance]
      have : D + i * D = (i + 1) * D := by ring
      rw [this]

@[simp]
theorem normalRep_length (k : ℕ) (m : List (List ℚ)) (scale : ℚ) (r : Rng) :
    (normalRep k m scale r).1.length = k := by
  induction k generalizing r with
  | zero => simp [normalRep]
  | succ j ih => simp [normalRep, ih]

theorem normalRep_snd (k : ℕ) (m : List (List ℚ)) (D : ℕ) (scale : ℚ)
    (r : Rng) (hD : ∀ row ∈ m, row.length = D) :
    (normalRep k m scale r).2 = r.advance (k * (m.length * D)) := by
  induction k generalizing r with
  | zero => simp [normalRep]
  | succ j ih =>
    simp only [normalRep]
    rw [normalMat_snd m D scale r hD, ih, Rng.advance_advance]
    have : m.length * D + j * (m.length * D) = (j + 1) * (m.length * D) := by
      ring
    rw [this]

theorem normalRep_getD (k : ℕ) (m : List (List ℚ)) (D : ℕ) (scale : ℚ)
    (r : Rng) (hD : ∀ row ∈ m, row.length = D) (j : ℕ) (hj : j < k) :
    (normalRep k m scale r).1.getD j [] =
      (normalMat m scale (r.advance (j * (m.length * D)))).1 := by
  induction k generalizing r j with
  | zero => simp at hj
  | succ q ih =>
    cases j with
    | zero => simp [normalRep]
    | succ j =>
      have hj' : j < q := by simpa using hj
      simp only [normalRep, List.getD_cons_succ]
      rw [normalMat_snd m D scale r hD, ih _ j hj', Rng.advance_advance]
      have : m.length * D + j * (m.length * D) =
          (j + 1) * (m.length * D) := by ring
      rw [this]

theorem range_map_getD {α : Type} (n i : ℕ) (f : ℕ → α) (d : α)
    (hi : i < n) : ((List.range n).map f).getD i d = f i := by
  rw [List.getD_eq_getElem?_getD]
  simp [List.getElem?_map, List.getElem?_range, hi]

theorem map_getD {α β : Type} (l : List α) (f : α → β) (j : ℕ)
    (hj : j < l.length) (d : α) (e : β) :
    (l.map f).getD j e = f (l.getD j d) := by
  rw [List.getD_eq_getElem?_getD, List.getElem?_map,
    List.getD_eq_getElem?_getD, List.getElem?_eq_getElem hj]
  simp

theorem getD_mem {α : Type} (l : List α) (i : ℕ) (hi : i < l.length)
    (d : α) : l.getD i d ∈ l := by
  rw [List.getD_eq_getElem?_getD, List.getElem?_eq_getElem hi]
  exact List.getElem_mem hi

@[simp]
theorem transpose102_length (n : ℕ) (x : List (List (List ℚ))) :
    (transpose102 n x).length = n := by
  simp [transpose102]

theorem transpose102_getD (n : ℕ) (x : List (List (List ℚ))) (i : ℕ)
    (hi : i < n) :
    (transpose102 n x).getD i [] = x.map (fun plane => plane.getD i []) := by
  unfold transpose102
  exact range_map_getD n i _ [] hi

@[simp]
theorem uniformVec_length (D : ℕ) (low high : ℚ) (r : Rng) :
    (uniformVec D low high r).1.length = D := by
  induction D generalizing r with
  | zero => simp [uniformVec]
  | succ d ih => simp [uniformVec, ih]

theorem uniformVec_mem_bounds (D : ℕ) (low high : ℚ) (r : Rng)
    (hlt : low < high) (hs : ∀ t, 0 ≤ r.stream t ∧ r.stream t < 1) :
    ∀ q ∈ (uniformVec D low high r).1, low ≤ q ∧ q < high := by
  induction D generalizing r with
  | zero => simp [uniformVec]
  | succ d ih =>
    intro q hq
    simp only [uniformVec, List.mem_cons] at hq
    rcases hq with hq | hq
    · subst hq
      obtain ⟨h0, h1⟩ := hs (r.pos)
      constructor
      · nlinarith
      · nlinarith
    · exact ih (r.advance 1) (fun t => hs t) q hq

/-! ### Stream agreement: outputs are determined by the raw draws the
generator will supply, relative to its current position -/

/-- Two generator states supply the same future raw draws. -/
def StreamAgree (r1 r2 : Rng) : Prop :=
  ∀ t, r1.stream (r1.pos + t) = r2.stream (r2.pos + t)

theorem StreamAgree.advance {r1 r2 : Rng} (h : StreamAgree r1 r2)
    (n : ℕ) : StreamAgree (r1.advance n) (r2.advance n) := by
  intro t
  simpa [Nat.add_assoc] using h (n + t)

theorem uniformVec_congr (D : ℕ) (low high : ℚ) {r1 r2 : Rng}
    (h : StreamAgree r1 r2) :
    (uniformVec D low high r1).1 = (uniformVec D low high r2).1 := by
  induction D generalizing r1 r2 with
  | zero => simp [uniformVec]
  | succ d ih =>
    simp only [uniformVec]
    refine congrArg₂ _ ?_ (ih (h.advance 1))
    have := h 0
    simpa using congrArg (fun z => low + (high - low) * z) this

theorem normalVec_congr (loc : List ℚ) (scale : ℚ) {r1 r2 : Rng}
    (h : StreamAgree r1 r2) :
    (normalVec loc scale r1).1 = (normalVec loc scale r2).1 := by
  induction loc generalizing r1 r2 with
  | nil => simp [normalVec]
  | cons a rest ih =>
    simp only [normalVec]
    refine congrArg₂ _ ?_ (ih (h.advance 1))
    have := h 0
    simpa using congrArg (fun z => a + scale * z) this

theorem normalMat_congr (m : List (List ℚ)) (scale : ℚ) {r1 r2 : Rng}
    (h : StreamAgree r1 r2) :
    (normalMat m scale r1).1 = (normalMat m scale r2).1 := by
  induction m generalizing r1 r2 with
  | nil => simp [normalMat]
  | cons row rest ih =>
    simp only [normalMat]
    refine congrArg₂ _ (normalVec_congr row scale h) ?_
    rw [normalVec_snd, normalVec_snd]
    exact ih (h.advance row.length)

theorem normalMat_snd_sum (m : List (List ℚ)) (scale : ℚ) (r : Rng) :
    (normalMat m scale r).2 = r.advance ((m.map List.length).sum) := by
  induction m generalizing r with
  | nil => simp [normalMat]
  | cons row rest ih =>
    simp only [normalMat]
    rw [normalVec_snd, ih, Rng.advance_advance]
    simp

theorem normalRep_congr (k : ℕ) (m : List (List ℚ)) (scale : ℚ)
    {r1 r2 : Rng} (h : StreamAgree r1 r2) :
    (normalRep k m scale r1).1 = (normalRep k m scale r2).1 := by
  induction k generalizing r1 r2 with
  | zero => simp [normalRep]
  | succ j ih =>
    simp only [normalRep]
    refine congrArg₂ _ (normalMat_congr m scale h) ?_
    rw [normalMat_snd_sum, normalMat_snd_sum]
    exact ih (h.advance _)

/-! ### Claim theorems -/

/-- C2: for every parameter input `params` of shape (N, D) with `n_obs`
absent, `observation_model(params)` returns an output of exactly the
same shape as `params`: the same number of rows, each row of the same
length, with no extra replicate axis (the result is rank 2). -/
theorem obs_model_no_nobs_same_shape (m : List (List ℚ)) (scale : ℚ)
    (r : Rng) :
    ∃ m' r', observation_model (.a2 m) none scale r = .ok (.o2 m', r') ∧
      m'.length = m.length ∧
      ∀ i < m.length, (m'.getD i []).length = (m.getD i []).length := by
  refine ⟨(normalMat m scale r).1, (normalMat m scale r).2, rfl, by simp, ?_⟩
  intro i hi
  exact normalMat_row_lengths m scale r i hi

/-- C3: for every positive `D` and bounds with `lower_bound <
upper_bound`, `prior(D, lower_bound, upper_bound, rng)` returns a vector
of exactly length `D` whose every component lies in
`[lower_bound, upper_bound)`, given that the generator supplies raw
uniform draws in `[0, 1)`. -/
theorem prior_length_bounds (D : ℕ) (lb ub : ℚ) (r : Rng) (_hD : 0 < D)
    (hlt : lb < ub) (hs : ∀ t, 0 ≤ r.stream t ∧ r.stream t < 1) :
    (prior D lb ub r).1.length = D ∧
      ∀ q ∈ (prior D lb ub r).1, lb ≤ q ∧ q < ub :=
  ⟨by simp [prior], uniformVec_mem_bounds D lb ub r hlt hs⟩

/-- A concrete generator whose raw draws are all 1/2. -/
def halfRng : Rng := ⟨fun _ => 1/2, 0⟩

/-- Witness for C3 at D = 3, bounds 0 and 1, generator `halfRng`. -/
theorem prior_length_bounds_witness :
    (0 < 3) ∧ ((0 : ℚ) < 1) ∧
      (∀ t, 0 ≤ halfRng.stream t ∧ halfRng.stream t < 1) ∧
      ((prior 3 0 1 halfRng).1.length = 3 ∧
        ∀ q ∈ (prior 3 0 1 halfRng).1, 0 ≤ q ∧ q < 1) :=
  ⟨by decide, by norm_num,
    fun t => by norm_num [halfRng],
    prior_length_bounds 3 0 1 halfRng (by decide) (by norm_num)
      (fun t => by norm_num [halfRng])⟩

/-- C7: with D = 2 and degenerate bounds `lower_bound = upper_bound =
0`, `prior` deterministically returns `[0, 0]` regardless of the state
or identity of the random source: every component is
`0 + (0 - 0) * u = 0`. -/
theorem prior_degenerate_zero_bounds (r : Rng) :
    (prior 2 0 0 r).1 = [0, 0] := by
  simp [prior, uniformVec]

/-- C4: `simulator()` returns a record with exactly the two fields
"parameters" and "observables" and no others, where "parameters" is a
10-vector (the `prior` default D = 10) and "observables" has the same
length as "parameters". -/
theorem simulator_record_fields (r1 r2 : Rng) :
    ∃ ps obs, simulator r1 r2 =
        .ok [("parameters", Out.o1 ps), ("observables", Out.o1 obs)] ∧
      ps.length = 10 ∧ obs.length = ps.length := by
  refine ⟨(prior 10 (-1) 1 r1).1,
    (normalVec (prior 10 (-1) 1 r1).1 (1/10) r2).1, rfl, ?_, ?_⟩
  · simp [prior]
  · simp

/-- C5 counterexample: calling `observation_model` on the 1-D parameter
vector `[1, 2]` with `n_obs = 3` does not complete: it evaluates
`params.shape[1]`, which does not exist for a 1-D array, and raises
`IndexError` instead of returning the replicated-observation
structure. -/
theorem obs_model_1d_nobs_errors :
    observation_model (.a1 [1, 2]) (some 3) (1/10) halfRng =
      .error "IndexError: tuple index out of range" := rfl

/-- C5 amended: `observation_model` accepts a 1-D D-vector only when
`n_obs` is absent, in which case it completes and returns a vector of
the same length; for every 1-D parameter vector and every `n_obs = k`,
the call fails with an IndexError (from `params.shape[1]`) rather than
completing. -/
theorem obs_model_1d_accepted_only_without_nobs (v : List ℚ) (k : ℕ)
    (scale : ℚ) (r : Rng) :
    observation_model (.a1 v) (some k) scale r =
        .error "IndexError: tuple index out of range" ∧
      ∃ w r', observation_model (.a1 v) none scale r = .ok (.o1 w, r') ∧
        w.length = v.length :=
  ⟨rfl, ⟨(normalVec v scale r).1, (normalVec v scale r).2, rfl, by simp⟩⟩

/-- C9: `observation_model` on a batch of shape (n_params, D) advances
the supplied generator by consuming exactly
n_params × (n_obs or 1) × D scalar draws: n_params × D when `n_obs` is
absent and n_params × k × D when `n_obs = k`. -/
theorem obs_model_rng_consumption (m : List (List ℚ)) (D k : ℕ)
    (scale : ℚ) (r : Rng) (hD : ∀ row ∈ m, row.length = D) :
    (∃ out, observation_model (.a2 m) none scale r =
        .ok (out, r.advance (m.length * D))) ∧
    ∃ out, observation_model (.a2 m) (some k) scale r =
        .ok (out, r.advance (m.length * k * D)) := by
  constructor
  · refine ⟨.o2 (normalMat m scale r).1, ?_⟩
    simp only [observation_model]
    rw [normalMat_snd m D scale r hD]
  · refine ⟨.o3 (transpose102 m.length (normalRep k m scale r).1), ?_⟩
    simp only [observation_model]
    rw [normalRep_snd k m D scale r hD]
    have h : k * (m.length * D) = m.length * k * D := by ring
    rw [h]

/-- Witness for C9 on the 2 × 2 batch [[1, 2], [3, 4]] with k = 3:
4 draws are consumed without `n_obs` and 12 with `n_obs = 3`. -/
theorem obs_model_rng_consumption_witness :
    (∀ row ∈ [[(1 : ℚ), 2], [3, 4]], row.length = 2) ∧
      ((∃ out, observation_model (.a2 [[(1 : ℚ), 2], [3, 4]]) none (1/10)
          halfRng = .ok (out, halfRng.advance (2 * 2))) ∧
        ∃ out, observation_model (.a2 [[(1 : ℚ), 2], [3, 4]]) (some 3)
          (1/10) halfRng = .ok (out, halfRng.advance (2 * 3 * 2))) :=
  ⟨by decide,
    obs_model_rng_consumption [[(1 : ℚ), 2], [3, 4]] 2 3 (1/10) halfRng
      (by decide)⟩

/-- C10: `observation_model` cannot mutate its `params` argument in
this embedding (all values are immutable), and the "parameters" field
of the record returned by `simulator()` is exactly the vector produced
by `prior`, unchanged by the intervening `observation_model` call. -/
theorem simulator_parameters_frame (r1 r2 : Rng) :
    ∃ obs, simulator r1 r2 =
      .ok [("parameters", Out.o1 (prior 10 (-1) 1 r1).1),
        ("observables", obs)] :=
  ⟨Out.o1 (normalVec (prior 10 (-1) 1 r1).1 (1/10) r2).1, rfl⟩

/-- C8: the zero-variance boundary case
`observation_model(params=[[1, 2]], n_obs=3, scale=0)` deterministically
returns the shape-(1, 3, 2) array `[[[1, 2], [1, 2], [1, 2]]]` — every
replicate equal to the parameter row — regardless of the random
source. -/
theorem obs_model_zero_scale (r : Rng) :
    ∃ r', observation_model (.a2 [[1, 2]]) (some 3) 0 r =
      .ok (.o3 [[[1, 2], [1, 2], [1, 2]]], r') := by
  refine ⟨(normalRep 3 [[1, 2]] 0 r).2, ?_⟩
  simp only [observation_model]
  have h : transpose102 (List.length [[(1 : ℚ), 2]])
      (normalRep 3 [[1, 2]] 0 r).1 = [[[1, 2], [1, 2], [1, 2]]] := by
    simp [normalRep, normalMat, normalVec, transpose102, List.range_succ]
  rw [h]

/-- C1: on a 2-D batch of shape (n_params, D) with `n_obs = k > 0`,
`observation_model` returns a 3-D array of shape (n_params, k, D): the
replicate axis is the second axis, and entry (i, j, d) is the d-th
component of the j-th replicate drawn for parameter row i — namely
`m[i][d] + scale * z` where `z` is the raw draw numbered
`(j * n_params + i) * D + d` in the generator's stream. -/
theorem obs_model_replicate_shape (m : List (List ℚ)) (D k : ℕ)
    (scale : ℚ) (r : Rng) (hD : ∀ row ∈ m, row.length = D)
    (_hk : 0 < k) :
    ∃ t r', observation_model (.a2 m) (some k) scale r =
        .ok (.o3 t, r') ∧
      t.length = m.length ∧
      (∀ i < m.length, (t.getD i []).length = k) ∧
      (∀ i < m.length, ∀ j < k, ((t.getD i []).getD j []).length = D) ∧
      (∀ i < m.length, ∀ j < k, ∀ d < D,
        ((t.getD i []).getD j []).getD d 0 =
          (m.getD i []).getD d 0 +
            scale * r.stream (r.pos + (j * m.length + i) * D + d)) := by
  refine ⟨transpose102 m.length (normalRep k m scale r).1,
    (normalRep k m scale r).2, rfl, by simp, ?_, ?_, ?_⟩
  · intro i hi
    rw [transpose102_getD m.length _ i hi]
    simp
  · intro i hi j hj
    rw [transpose102_getD m.length _ i hi]
    have hj' : j < ((normalRep k m scale r).1).length := by simpa using hj
    rw [map_getD _ _ j hj' []]
    rw [normalRep_getD k m D scale r hD j hj]
    rw [normalMat_row_lengths _ scale _ i hi]
    exact hD _ (getD_mem m i hi [])
  · intro i hi j hj d hd
    rw [transpose102_getD m.length _ i hi]
    have hj' : j < ((normalRep k m scale r).1).length := by simpa using hj
    rw [map_getD _ _ j hj' []]
    rw [normalRep_getD k m D scale r hD j hj]
    rw [normalMat_getD m D scale _ hD i hi]
    have hd' : d < (m.getD i []).length := by
      rw [hD _ (getD_mem m i hi [])]; exact hd
    rw [normalVec_getD _ scale _ d hd']
    rw [Rng.advance_advance]
    have harg : r.pos + (j * (m.length * D) + i * D) + d =
        r.pos + (j * m.length + i) * D + d := by ring
    rw [Rng.advance_stream, Rng.advance_pos, harg]

/-- Witness for C1 on the 2 × 2 batch [[1, 2], [3, 4]] with k = 2
replicates. -/
theorem obs_model_replicate_shape_witness :
    (∀ row ∈ [[(1 : ℚ), 2], [3, 4]], row.length = 2) ∧ 0 < 2 ∧
      (∃ t r', observation_model (.a2 [[(1 : ℚ), 2], [3, 4]]) (some 2)
          (1/10) halfRng = .ok (.o3 t, r') ∧
        t.length = 2 ∧
        (∀ i < 2, (t.getD i []).length = 2) ∧
        (∀ i < 2, ∀ j < 2, ((t.getD i []).getD j []).length = 2) ∧
        (∀ i < 2, ∀ j < 2, ∀ d < 2,
          ((t.getD i []).getD j []).getD d 0 =
            ([[(1 : ℚ), 2], [3, 4]].getD i []).getD d 0 +
              (1/10) * halfRng.stream
                (halfRng.pos + (j * 2 + i) * 2 + d))) :=
  ⟨by decide, by decide,
    obs_model_replicate_shape [[(1 : ℚ), 2], [3, 4]] 2 2 (1/10) halfRng
      (by decide) (by decide)⟩

/-- C6: determinism as a two-run property.  All three operations are
pure functions of the generator state and the call arguments — no
hidden global state.  Whenever two generator states supply the same
future raw draws, the values produced by `prior` and
`observation_model` are bit-identical for every choice of arguments,
and `simulator` returns the identical record. -/
theorem determinism_two_run (r1 r2 r3 r4 : Rng)
    (h12 : StreamAgree r1 r2) (h34 : StreamAgree r3 r4) :
    (∀ D lb ub, (prior D lb ub r1).1 = (prior D lb ub r2).1) ∧
      (∀ p n_obs scale,
        (observation_model p n_obs scale r1).map Prod.fst =
          (observation_model p n_obs scale r2).map Prod.fst) ∧
      simulator r1 r3 = simulator r2 r4 := by
  refine ⟨?_, ?_, ?_⟩
  · intro D lb ub
    exact uniformVec_congr D lb ub h12
  · intro p n_obs scale
    cases n_obs with
    | none =>
      cases p with
      | a1 v =>
        simp only [observation_model, Except.map]
        rw [normalVec_congr v scale h12]
      | a2 m =>
        simp only [observation_model, Except.map]
        rw [normalMat_congr m scale h12]
    | some k =>
      cases p with
      | a1 v => rfl
      | a2 m =>
        simp only [observation_model, Except.map]
        rw [normalRep_congr k m scale h12]
  · simp only [simulator, prior, observation_model]
    rw [uniformVec_congr 10 (-1) 1 h12,
      normalVec_congr (uniformVec 10 (-1) 1 r2).1 (1/10) h34]

/-- A generator already advanced to position 3 over the stream t ↦ t. -/
def shiftedRngA : Rng := ⟨fun t => (t : ℚ), 3⟩

/-- A fresh generator over the stream t ↦ t + 3: it supplies the same
future draws as `shiftedRngA`. -/
def shiftedRngB : Rng := ⟨fun t => (t : ℚ) + 3, 0⟩

/-- Witness for C6: `shiftedRngA` and `shiftedRngB` agree on all future
draws, and the three operations coincide on them. -/
theorem determinism_two_run_witness :
    StreamAgree shiftedRngA shiftedRngB ∧
      StreamAgree halfRng halfRng ∧
      ((∀ D lb ub,
          (prior D lb ub shiftedRngA).1 = (prior D lb ub shiftedRngB).1) ∧
        (∀ p n_obs scale,
          (observation_model p n_obs scale shiftedRngA).map Prod.fst =
            (observation_model p n_obs scale shiftedRngB).map Prod.fst) ∧
        simulator shiftedRngA halfRng = simulator shiftedRngB halfRng) :=
  ⟨fun t => by simp [shiftedRngA, shiftedRngB]; ring,
    fun t => rfl,
    determinism_two_run shiftedRngA shiftedRngB halfRng halfRng
      (fun t => by simp [shiftedRngA, shiftedRngB]; ring)
      (fun t => rfl)⟩

end GaussianLinearUniform
